import Mathlib

/-
Verification development for the red_memo library (src/src/lib.rs), a
memoization cache for recursive user functions.

Shallow embedding:
* `MemoVal` mirrors the Rust `enum MemoVal<V> { InProgress, Finished(V) }`.
* `StoreOps` mirrors the `MemoStruct` trait (`insert` / `get` / `get_mut`);
  `set` models the only use of `get_mut` in the library, namely
  `get_mut(k).map(|vr| *vr = v)`, an in-place update that is a no-op when
  the key is absent.
* `hashGet`/`hashInsert`/`hashSet` model the `HashMap` realization as an
  association list queried by scan; `ordGet`/`ordInsert`/`ordSet` model the
  `BTreeMap` realization as an association list kept sorted by key, with
  early exit on search.  Both `insert`s signal a conflict by returning the
  previous value, as the Rust impls do via `Err(oldv)`.
* `Memoizer` carries the cache and the optional memoization predicate.
  The user function (an `Rc<dyn Fn>` fixed at construction and never
  replaced) is passed as an explicit parameter `userF` to the interpreter.
* A user function is embedded as a `Prog`: an interaction tree over the
  public API available to it through its `&mut Memoizer` handle
  (`lookup`, `lookup_immut`, `set_memo_predicate`), returning a `V`.
* `run` is a fuel-indexed interpreter; `Job.call k` is `lookup(k)` and
  `Job.exec p` runs a user program.  Rust panics are modelled by the
  `Err` error type (`circular` for the circular-dependency panic,
  `invariantViolation` for the insert-conflict panic); exhausting fuel
  yields `Err.outOfFuel`, the embedding's stand-in for non-termination.
-/

namespace RedMemo

/-- Mirrors Rust `enum MemoVal<V> { InProgress, Finished(V) }`. -/
inductive MemoVal (V : Type) where
  | InProgress : MemoVal V
  | Finished : V → MemoVal V
deriving DecidableEq, Repr

/-- Abnormal outcomes of a lookup: the two Rust panics, plus fuel
exhaustion (the embedding's stand-in for non-termination). -/
inductive Err (K : Type) where
  | circular : K → Err K
  | invariantViolation : K → Err K
  | outOfFuel : Err K
deriving DecidableEq, Repr

/-- Mirrors the Rust trait `MemoStruct` (`insert` / `get` / `get_mut`):
`insert` reports a conflict by returning the previous value, `get` returns
a copy, and `set` models the library's only use of `get_mut`, an in-place
update that is a no-op when the key is absent. -/
structure StoreOps (S K A : Type) where
  get : S → K → Option A
  insert : S → K → A → Except A S
  set : S → K → A → S

/-- Association-list point lookup by linear scan (models `HashMap::get`). -/
def hashGet {K A : Type} [DecidableEq K] : List (K × A) → K → Option A
  | [], _ => none
  | (k', a) :: rest, k => if k = k' then some a else hashGet rest k

/-- Models `HashMap::insert` through the `MemoStruct` impl: insert if the
key is absent, otherwise report the previous value as a conflict. -/
def hashInsert {K A : Type} [DecidableEq K] (s : List (K × A)) (k : K) (a : A) :
    Except A (List (K × A)) :=
  match hashGet s k with
  | none => .ok ((k, a) :: s)
  | some old => .error old

/-- Models `HashMap::get_mut(k).map(|vr| *vr = a)`: update in place,
no-op when the key is absent. -/
def hashSet {K A : Type} [DecidableEq K] : List (K × A) → K → A → List (K × A)
  | [], _, _ => []
  | (k', a') :: rest, k, a =>
    if k = k' then (k, a) :: rest else (k', a') :: hashSet rest k a

/-- The `HashMap` store realization. -/
def hashOps {K A : Type} [DecidableEq K] : StoreOps (List (K × A)) K A :=
  { get := hashGet, insert := hashInsert, set := hashSet }

/-- Ordered point lookup with early exit (models `BTreeMap::get` search
on a key-sorted association list). -/
def ordGet {K A : Type} [LinearOrder K] : List (K × A) → K → Option A
  | [], _ => none
  | (k', a) :: rest, k =>
    if k = k' then some a else if k < k' then none else ordGet rest k

/-- Models `BTreeMap::insert` through the `MemoStruct` impl: insert at the
sorted position if the key is absent, otherwise report the previous value
as a conflict. -/
def ordInsert {K A : Type} [LinearOrder K] : List (K × A) → K → A → Except A (List (K × A))
  | [], k, a => .ok [(k, a)]
  | (k', a') :: rest, k, a =>
    if k = k' then .error a'
    else if k < k' then .ok ((k, a) :: (k', a') :: rest)
    else (ordInsert rest k a).map (fun r => (k', a') :: r)

/-- Models `BTreeMap::get_mut(k).map(|vr| *vr = a)`: update in place,
no-op when the key is absent. -/
def ordSet {K A : Type} [LinearOrder K] : List (K × A) → K → A → List (K × A)
  | [], _, _ => []
  | (k', a') :: rest, k, a =>
    if k = k' then (k, a) :: rest
    else if k < k' then (k', a') :: rest
    else (k', a') :: ordSet rest k a

/-- The `BTreeMap` store realization. -/
def ordOps {K A : Type} [LinearOrder K] : StoreOps (List (K × A)) K A :=
  { get := ordGet, insert := ordInsert, set := ordSet }

/-- Mirrors the Rust struct `Memoizer` (its `cache` and `memo_predicate`
fields; the `user_function`, fixed at construction and never replaced, is
passed to the interpreter as an explicit parameter). -/
structure Memoizer (S K V : Type) where
  cache : S
  memo_predicate : Option (K → Bool)

/-- A user function's interaction with its `&mut Memoizer` handle: the
public API calls it may make, ending in the value it returns. -/
inductive Prog (K V : Type) where
  | ret : V → Prog K V
  | lookup : K → (V → Prog K V) → Prog K V
  | lookupImmut : K → (Option V → Prog K V) → Prog K V
  | setPred : (K → Bool) → Prog K V → Prog K V

/-- Mirrors `Memoizer::new_hash`: empty cache, no predicate installed. -/
def new_hash {K V : Type} : Memoizer (List (K × MemoVal V)) K V :=
  { cache := [], memo_predicate := none }

/-- Mirrors `Memoizer::new_ord`: empty cache, no predicate installed. -/
def new_ord {K V : Type} : Memoizer (List (K × MemoVal V)) K V :=
  { cache := [], memo_predicate := none }

/-- Mirrors `Memoizer::set_memo_predicate`. -/
def set_memo_predicate {S K V : Type} (mem : Memoizer S K V) (p : K → Bool) :
    Memoizer S K V :=
  { mem with memo_predicate := some p }

/-- Mirrors `Memoizer::lookup_immut`. -/
def lookup_immut {S K V : Type} (ops : StoreOps S K (MemoVal V))
    (mem : Memoizer S K V) (k : K) : Option V :=
  (ops.get mem.cache k).bind (fun mv =>
    match mv with
    | .InProgress => none
    | .Finished v => some v)

/-- Mirrors the line
`self.memo_predicate.as_ref().map(|p| p(k)).unwrap_or(true)`
of `Memoizer::lookup`: the decision whether to persist key `k`. -/
def saveDecision {S K V : Type} (mem : Memoizer S K V) (k : K) : Bool :=
  (mem.memo_predicate.map (fun p => p k)).getD true

/-- The interpreter's unit of work: a `lookup` call, or the body of a user
program executing against the memoizer. -/
inductive Job (K V : Type) where
  | call : K → Job K V
  | exec : Prog K V → Job K V

/-- One unfolding of the interpreter, with `next` standing for the
strictly-smaller-fuel continuation.  `Job.call k` mirrors the body of
`Memoizer::lookup`; `Job.exec p` runs a user program, whose `lookup` nodes
re-enter `Job.call`. -/
def runStep {S K V : Type} (ops : StoreOps S K (MemoVal V)) (userF : K → Prog K V)
    (next : Job K V → Memoizer S K V → Except (Err K) (V × Memoizer S K V)) :
    Job K V → Memoizer S K V → Except (Err K) (V × Memoizer S K V)
  | .call k, mem =>
    match ops.get mem.cache k with
    | some .InProgress => .error (.circular k)
    | some (.Finished v) => .ok (v, mem)
    | none =>
      match (if saveDecision mem k
             then ops.insert mem.cache k .InProgress
             else .ok mem.cache) with
      | .error _ => .error (.invariantViolation k)
      | .ok c1 =>
        match next (.exec (userF k)) ⟨c1, mem.memo_predicate⟩ with
        | .error e => .error e
        | .ok (v, mem2) =>
          .ok (v, ⟨if saveDecision mem k
                   then ops.set mem2.cache k (.Finished v)
                   else mem2.cache,
                   mem2.memo_predicate⟩)
  | .exec (.ret v), mem => .ok (v, mem)
  | .exec (.lookup k cont), mem =>
    match next (.call k) mem with
    | .error e => .error e
    | .ok (v, mem2) => next (.exec (cont v)) mem2
  | .exec (.lookupImmut k cont), mem =>
    next (.exec (cont (lookup_immut ops mem k))) mem
  | .exec (.setPred p rest), mem =>
    next (.exec rest) (set_memo_predicate mem p)

/-- Fuel-indexed interpreter: `fuel` nested unfoldings of `runStep` over a
base that reports fuel exhaustion.  Fuel decreases at every step, so
`Err.outOfFuel` for all fuels models non-termination; all other outcomes
are fuel-independent once enough fuel is supplied.  (The recursion is
expressed through `Nat.rec` so that concrete runs reduce efficiently.) -/
def run {S K V : Type} (ops : StoreOps S K (MemoVal V)) (userF : K → Prog K V)
    (fuel : Nat) : Job K V → Memoizer S K V → Except (Err K) (V × Memoizer S K V) :=
  Nat.rec (fun _ _ => .error .outOfFuel) (fun _ next => runStep ops userF next) fuel

/-- Mirrors `Memoizer::lookup` as an entry point. -/
def lookup {S K V : Type} (ops : StoreOps S K (MemoVal V)) (userF : K → Prog K V)
    (fuel : Nat) (mem : Memoizer S K V) (k : K) : Except (Err K) (V × Memoizer S K V) :=
  run ops userF fuel (.call k) mem

/-- Runs a user program against the memoizer. -/
def runProg {S K V : Type} (ops : StoreOps S K (MemoVal V)) (userF : K → Prog K V)
    (fuel : Nat) (p : Prog K V) (mem : Memoizer S K V) :
    Except (Err K) (V × Memoizer S K V) :=
  run ops userF fuel (.exec p) mem

/-- The user function of the library's doc example and test suite:
`f(k) = k` for `k < 2`, else `lookup(k-1) + lookup(k-2)`. -/
def fibProg (k : Nat) : Prog Nat Nat :=
  if k < 2 then .ret k
  else .lookup (k - 1) (fun a => .lookup (k - 2) (fun b => .ret (a + b)))

/-- One top-level call a client can make on a `Memoizer`. -/
inductive Call (K : Type) where
  | lookup : K → Call K
  | lookupImmut : K → Call K
  | setPred : (K → Bool) → Call K

/-- The observable outcome of one top-level call. -/
inductive CallRes (V : Type) where
  | val : V → CallRes V
  | found : Option V → CallRes V
  | unit : CallRes V
deriving DecidableEq, Repr

/-- Runs a sequence of top-level client calls, collecting the observable
outcome of each; a panic (`Err`) aborts the rest of the sequence. -/
def runCalls {S K V : Type} (ops : StoreOps S K (MemoVal V)) (userF : K → Prog K V)
    (fuel : Nat) : List (Call K) → Memoizer S K V →
    Except (Err K) (List (CallRes V) × Memoizer S K V)
  | [], mem => .ok ([], mem)
  | .lookup k :: rest, mem =>
    match lookup ops userF fuel mem k with
    | .error e => .error e
    | .ok (v, mem2) =>
      match runCalls ops userF fuel rest mem2 with
      | .error e => .error e
      | .ok (rs, memF) => .ok (.val v :: rs, memF)
  | .lookupImmut k :: rest, mem =>
    match runCalls ops userF fuel rest mem with
    | .error e => .error e
    | .ok (rs, memF) => .ok (.found (lookup_immut ops mem k) :: rs, memF)
  | .setPred p :: rest, mem =>
    match runCalls ops userF fuel rest (set_memo_predicate mem p) with
    | .error e => .error e
    | .ok (rs, memF) => .ok (.unit :: rs, memF)

/-- The algebra of a backing store that the lookup algorithm relies on,
phrased over the observable `get`. -/
structure StoreLaws {S K A : Type} (ops : StoreOps S K A) : Prop where
  get_insert_self : ∀ s k a s', ops.insert s k a = .ok s' → ops.get s' k = some a
  get_insert_other : ∀ s k a s' j, ops.insert s k a = .ok s' → j ≠ k →
    ops.get s' j = ops.get s j
  insert_of_absent : ∀ s k a, ops.get s k = none → ∃ s', ops.insert s k a = .ok s'
  get_set_self : ∀ s k a w, ops.get s k = some w → ops.get (ops.set s k a) k = some a
  get_set_absent : ∀ s k a, ops.get s k = none → ops.get (ops.set s k a) k = none
  get_set_other : ∀ s k a j, j ≠ k → ops.get (ops.set s k a) j = ops.get s j

/-- Per-key slot order of the spec's state machine: absent may become
anything, `InProgress` may stay or become `Finished`, and a `Finished`
value may only stay itself. -/
def slotLE {V : Type} : Option (MemoVal V) → Option (MemoVal V) → Prop
  | none, _ => True
  | some .InProgress, some _ => True
  | some (.Finished v), some (.Finished w) => v = w
  | _, _ => False

/-- True of the result of a lookup exactly when it is the
internal-invariant panic for an insert conflict. -/
def hasConflictPanic {S K V : Type} :
    Except (Err K) (V × Memoizer S K V) → Bool
  | .error (.invariantViolation _) => true
  | _ => false

/-- A user program that never calls `set_memo_predicate`. -/
def Prog.predFree {K V : Type} : Prog K V → Prop
  | .ret _ => True
  | .lookup _ cont => ∀ v, (cont v).predFree
  | .lookupImmut _ cont => ∀ o, (cont o).predFree
  | .setPred _ _ => False

/-- A job whose user-program part never calls `set_memo_predicate`. -/
def Job.predFree {K V : Type} : Job K V → Prop
  | .call _ => True
  | .exec p => p.predFree


/-- A user function whose program for key `k` immediately looks `k` up
again: the simplest transitively self-referential function. -/
def selfLoop {K V : Type} : K → Prog K V :=
  fun k => .lookup k (fun v => .ret v)

/-- The predicate of the spec's opt-out scenario: false for even keys,
true for odd keys. -/
def oddKeysOnly : Nat → Bool :=
  fun n => decide (n % 2 = 1)

/-- The lookup sequence of the library's test suite (`fibs_ord` and
`fibs_hash`). -/
def fibCalls : List (Call Nat) :=
  [.lookup 0, .lookup 1, .lookup 2, .lookup 3, .lookup 20, .lookup 30, .lookup 40]

/-- Observational equivalence of two memoizers over possibly different
store realizations: equal `get` views and equal predicates. -/
def MemRel {S1 S2 K V : Type} (ops1 : StoreOps S1 K (MemoVal V))
    (ops2 : StoreOps S2 K (MemoVal V)) (m1 : Memoizer S1 K V)
    (m2 : Memoizer S2 K V) : Prop :=
  (∀ j, ops1.get m1.cache j = ops2.get m2.cache j) ∧
    m1.memo_predicate = m2.memo_predicate

/-- Result equivalence for one computation over two store realizations:
equal abnormal outcomes, or equal values with equivalent memoizers. -/
def ResRel {S1 S2 K V : Type} (ops1 : StoreOps S1 K (MemoVal V))
    (ops2 : StoreOps S2 K (MemoVal V)) :
    Except (Err K) (V × Memoizer S1 K V) →
    Except (Err K) (V × Memoizer S2 K V) → Prop
  | .error e1, .error e2 => e1 = e2
  | .ok (v1, m1), .ok (v2, m2) => v1 = v2 ∧ MemRel ops1 ops2 m1 m2
  | _, _ => False

/-- Result equivalence for a call sequence over two store realizations. -/
def CallsRel {S1 S2 K V : Type} (ops1 : StoreOps S1 K (MemoVal V))
    (ops2 : StoreOps S2 K (MemoVal V)) :
    Except (Err K) (List (CallRes V) × Memoizer S1 K V) →
    Except (Err K) (List (CallRes V) × Memoizer S2 K V) → Prop
  | .error e1, .error e2 => e1 = e2
  | .ok (rs1, m1), .ok (rs2, m2) => rs1 = rs2 ∧ MemRel ops1 ops2 m1 m2
  | _, _ => False

section StoreLemmas

variable {K A : Type}

variable [DecidableEq K]

theorem hashGet_nil (k : K) : hashGet ([] : List (K × A)) k = none := rfl

theorem hashGet_cons (k k' : K) (a : A) (s : List (K × A)) :
    hashGet ((k', a) :: s) k = if k = k' then some a else hashGet s k := rfl

theorem hashSet_of_absent (s : List (K × A)) (k : K) (a : A)
    (h : hashGet s k = none) : hashSet s k a = s := by
  induction s with
  | nil => rfl
  | cons hd tl ih =>
    obtain ⟨k', a'⟩ := hd
    rw [hashGet_cons] at h
    by_cases hk : k = k'
    · simp [hk] at h
    · simp [hashSet, hk] at h ⊢
      exact ih h

theorem hashGet_hashSet_self (s : List (K × A)) (k : K) (a w : A)
    (h : hashGet s k = some w) : hashGet (hashSet s k a) k = some a := by
  induction s with
  | nil => simp [hashGet] at h
  | cons hd tl ih =>
    obtain ⟨k', a'⟩ := hd
    rw [hashGet_cons] at h
    by_cases hk : k = k'
    · simp [hashSet, hk, hashGet_cons]
    · simp [hk] at h
      simp [hashSet, hk, hashGet_cons]
      exact ih h

theorem hashGet_hashSet_other (s : List (K × A)) (k : K) (a : A) (j : K)
    (hj : j ≠ k) : hashGet (hashSet s k a) j = hashGet s j := by
  induction s with
  | nil => rfl
  | cons hd tl ih =>
    obtain ⟨k', a'⟩ := hd
    by_cases hk : k = k'
    · subst hk
      simp [hashSet, hashGet_cons, hj]
    · simp [hashSet, hk, hashGet_cons]
      by_cases hjk : j = k'
      · simp [hjk]
      · simp [hjk, ih]

/-- The scan-based association list satisfies the store algebra. -/
theorem hashLaws : StoreLaws (hashOps : StoreOps (List (K × A)) K A) := by
  constructor
  · intro s k a s' hins
    simp only [hashOps, hashInsert] at hins
    cases hget : hashGet s k with
    | none =>
      rw [hget] at hins
      cases hins
      simp [hashOps, hashGet_cons]
    | some old => rw [hget] at hins; cases hins
  · intro s k a s' j hins hj
    simp only [hashOps, hashInsert] at hins
    cases hget : hashGet s k with
    | none =>
      rw [hget] at hins
      cases hins
      simp [hashOps, hashGet_cons, hj]
    | some old => rw [hget] at hins; cases hins
  · intro s k a h
    simp only [hashOps] at h
    exact ⟨(k, a) :: s, by simp [hashOps, hashInsert, h]⟩
  · intro s k a w h
    exact hashGet_hashSet_self s k a w h
  · intro s k a h
    simp only [hashOps] at h ⊢
    rw [hashSet_of_absent s k a h]
    exact h
  · intro s k a j hj
    exact hashGet_hashSet_other s k a j hj

end StoreLemmas

section OrdStoreLemmas

variable {K A : Type} [LinearOrder K]

theorem ordGet_nil (k : K) : ordGet ([] : List (K × A)) k = none := rfl

theorem ordGet_cons (k k' : K) (a : A) (s : List (K × A)) :
    ordGet ((k', a) :: s) k =
      if k = k' then some a else if k < k' then none else ordGet s k := rfl

theorem ordSet_of_absent (s : List (K × A)) (k : K) (a : A)
    (h : ordGet s k = none) : ordSet s k a = s := by
  induction s with
  | nil => rfl
  | cons hd tl ih =>
    obtain ⟨k', a'⟩ := hd
    rw [ordGet_cons] at h
    by_cases hk : k = k'
    · simp [hk] at h
    · by_cases hlt : k < k'
      · simp [ordSet, hk, hlt]
      · simp [hk, hlt] at h
        simp [ordSet, hk, hlt, ih h]

theorem ordGet_ordSet_self (s : List (K × A)) (k : K) (a w : A)
    (h : ordGet s k = some w) : ordGet (ordSet s k a) k = some a := by
  induction s with
  | nil => simp [ordGet] at h
  | cons hd tl ih =>
    obtain ⟨k', a'⟩ := hd
    rw [ordGet_cons] at h
    by_cases hk : k = k'
    · simp [ordSet, hk, ordGet_cons]
    · by_cases hlt : k < k'
      · simp [hk, hlt] at h
      · simp [hk, hlt] at h
        simp [ordSet, hk, hlt, ordGet_cons]
        exact ih h

theorem ordGet_ordSet_other (s : List (K × A)) (k : K) (a : A) (j : K)
    (hj : j ≠ k) : ordGet (ordSet s k a) j = ordGet s j := by
  induction s with
  | nil => rfl
  | cons hd tl ih =>
    obtain ⟨k', a'⟩ := hd
    by_cases hk : k = k'
    · subst hk
      simp [ordSet, ordGet_cons, hj]
    · by_cases hlt : k < k'
      · simp [ordSet, hk, hlt]
      · simp [ordSet, hk, hlt, ordGet_cons]
        by_cases hjk : j = k'
        · simp [hjk]
        · simp [hjk, ih]

theorem ordGet_ordInsert_self (s : List (K × A)) (k : K) (a : A)
    (s' : List (K × A)) (hins : ordInsert s k a = .ok s') :
    ordGet s' k = some a := by
  induction s generalizing s' with
  | nil =>
    simp only [ordInsert] at hins
    cases hins
    simp [ordGet_cons]
  | cons hd tl ih =>
    obtain ⟨k', a'⟩ := hd
    simp only [ordInsert] at hins
    by_cases hk : k = k'
    · simp [hk] at hins
    · by_cases hlt : k < k'
      · simp [hk, hlt] at hins
        cases hins
        simp [ordGet_cons]
      · simp [hk, hlt] at hins
        cases hrec : ordInsert tl k a with
        | error e => rw [hrec] at hins; cases hins
        | ok r =>
          rw [hrec] at hins
          cases hins
          simp [ordGet_cons, hk, hlt, ih r hrec]

theorem ordGet_ordInsert_other (s : List (K × A)) (k : K) (a : A)
    (s' : List (K × A)) (j : K) (hins : ordInsert s k a = .ok s') (hj : j ≠ k) :
    ordGet s' j = ordGet s j := by
  induction s generalizing s' with
  | nil =>
    simp only [ordInsert] at hins
    cases hins
    simp [ordGet_cons, hj, ordGet]
  | cons hd tl ih =>
    obtain ⟨k', a'⟩ := hd
    simp only [ordInsert] at hins
    by_cases hk : k = k'
    · simp [hk] at hins
    · by_cases hlt : k < k'
      · simp [hk, hlt] at hins
        cases hins
        rw [ordGet_cons ]
        rw [if_neg hj]
        by_cases hjlt : j < k
        · have hjk' : j < k' := hjlt.trans hlt
          simp [hjlt, ordGet_cons, ne_of_lt hjk', hjk']
        · simp [hjlt]
      · simp [hk, hlt] at hins
        cases hrec : ordInsert tl k a with
        | error e => rw [hrec] at hins; cases hins
        | ok r =>
          rw [hrec] at hins
          cases hins
          rw [ordGet_cons, ordGet_cons]
          by_cases hjk : j = k'
          · simp [hjk]
          · by_cases hjlt : j < k'
            · simp [hjk, hjlt]
            · simp [hjk, hjlt, ih r hrec]

theorem ordInsert_of_absent (s : List (K × A)) (k : K) (a : A)
    (h : ordGet s k = none) : ∃ s', ordInsert s k a = .ok s' := by
  induction s with
  | nil => exact ⟨[(k, a)], rfl⟩
  | cons hd tl ih =>
    obtain ⟨k', a'⟩ := hd
    rw [ordGet_cons] at h
    by_cases hk : k = k'
    · simp [hk] at h
    · by_cases hlt : k < k'
      · exact ⟨(k, a) :: (k', a') :: tl, by simp [ordInsert, hk, hlt]⟩
      · simp [hk, hlt] at h
        obtain ⟨r, hr⟩ := ih h
        exact ⟨(k', a') :: r, by simp [ordInsert, hk, hlt, hr, Except.map]⟩

/-- The sorted-insertion association list satisfies the store algebra. -/
theorem ordLaws : StoreLaws (ordOps : StoreOps (List (K × A)) K A) := by
  constructor
  · intro s k a s' hins
    exact ordGet_ordInsert_self s k a s' hins
  · intro s k a s' j hins hj
    exact ordGet_ordInsert_other s k a s' j hins hj
  · intro s k a h
    exact ordInsert_of_absent s k a h
  · intro s k a w h
    exact ordGet_ordSet_self s k a w h
  · intro s k a h
    simp only [ordOps] at h ⊢
    rw [ordSet_of_absent s k a h]
    exact h
  · intro s k a j hj
    exact ordGet_ordSet_other s k a j hj

end OrdStoreLemmas

section RunLemmas

variable {S K V : Type} (ops : StoreOps S K (MemoVal V)) (userF : K → Prog K V)

theorem run_zero (job : Job K V) (mem : Memoizer S K V) :
    run ops userF 0 job mem = .error .outOfFuel := rfl

theorem run_call_eq (fuel : Nat) (k : K) (mem : Memoizer S K V) :
    run ops userF (fuel + 1) (.call k) mem =
      match ops.get mem.cache k with
      | some .InProgress => .error (.circular k)
      | some (.Finished v) => .ok (v, mem)
      | none =>
        match (if saveDecision mem k
               then ops.insert mem.cache k .InProgress
               else .ok mem.cache) with
        | .error _ => .error (.invariantViolation k)
        | .ok c1 =>
          match run ops userF fuel (.exec (userF k)) ⟨c1, mem.memo_predicate⟩ with
          | .error e => .error e
          | .ok (v, mem2) =>
            .ok (v, ⟨if saveDecision mem k
                     then ops.set mem2.cache k (.Finished v)
                     else mem2.cache,
                     mem2.memo_predicate⟩) := rfl

theorem run_exec_ret (fuel : Nat) (v : V) (mem : Memoizer S K V) :
    run ops userF (fuel + 1) (.exec (.ret v)) mem = .ok (v, mem) := rfl

theorem run_exec_lookup (fuel : Nat) (k : K) (cont : V → Prog K V)
    (mem : Memoizer S K V) :
    run ops userF (fuel + 1) (.exec (.lookup k cont)) mem =
      match run ops userF fuel (.call k) mem with
      | .error e => .error e
      | .ok (v, mem2) => run ops userF fuel (.exec (cont v)) mem2 := rfl

theorem run_exec_lookupImmut (fuel : Nat) (k : K) (cont : Option V → Prog K V)
    (mem : Memoizer S K V) :
    run ops userF (fuel + 1) (.exec (.lookupImmut k cont)) mem =
      run ops userF fuel (.exec (cont (lookup_immut ops mem k))) mem := rfl

theorem run_exec_setPred (fuel : Nat) (p : K → Bool) (rest : Prog K V)
    (mem : Memoizer S K V) :
    run ops userF (fuel + 1) (.exec (.setPred p rest)) mem =
      run ops userF fuel (.exec rest) (set_memo_predicate mem p) := rfl

theorem run_call_inprogress (fuel : Nat) (k : K) (mem : Memoizer S K V)
    (h : ops.get mem.cache k = some .InProgress) :
    run ops userF (fuel + 1) (.call k) mem = .error (.circular k) := by
  rw [run_call_eq, h]

theorem run_call_finished (fuel : Nat) (k : K) (v : V) (mem : Memoizer S K V)
    (h : ops.get mem.cache k = some (.Finished v)) :
    run ops userF (fuel + 1) (.call k) mem = .ok (v, mem) := by
  rw [run_call_eq, h]

theorem run_call_miss_save (fuel : Nat) (k : K) (mem : Memoizer S K V)
    (c1 : S) (h : ops.get mem.cache k = none) (hsave : saveDecision mem k = true)
    (hins : ops.insert mem.cache k .InProgress = .ok c1) :
    run ops userF (fuel + 1) (.call k) mem =
      match run ops userF fuel (.exec (userF k)) ⟨c1, mem.memo_predicate⟩ with
      | .error e => .error e
      | .ok (v, mem2) =>
        .ok (v, ⟨ops.set mem2.cache k (.Finished v), mem2.memo_predicate⟩) := by
  rw [run_call_eq, h, hsave, hins]
  rfl

theorem run_call_miss_nosave (fuel : Nat) (k : K) (mem : Memoizer S K V)
    (h : ops.get mem.cache k = none) (hsave : saveDecision mem k = false) :
    run ops userF (fuel + 1) (.call k) mem =
      match run ops userF fuel (.exec (userF k)) mem with
      | .error e => .error e
      | .ok (v, mem2) => .ok (v, mem2) := by
  rw [run_call_eq, h, hsave]
  rfl

/-- Inversion for a successful `lookup` call: it was a pure cache hit, a
persisted miss, or a non-persisted miss. -/
theorem call_ok_inv (hL : StoreLaws ops) (fuel : Nat) (k : K)
    (mem mem' : Memoizer S K V) (v : V)
    (hok : run ops userF (fuel + 1) (.call k) mem = .ok (v, mem')) :
    (ops.get mem.cache k = some (.Finished v) ∧ mem' = mem) ∨
    (ops.get mem.cache k = none ∧ saveDecision mem k = true ∧
      ∃ c1 mem2, ops.insert mem.cache k .InProgress = .ok c1 ∧
        run ops userF fuel (.exec (userF k)) ⟨c1, mem.memo_predicate⟩ = .ok (v, mem2) ∧
        mem' = ⟨ops.set mem2.cache k (.Finished v), mem2.memo_predicate⟩) ∨
    (ops.get mem.cache k = none ∧ saveDecision mem k = false ∧
      run ops userF fuel (.exec (userF k)) mem = .ok (v, mem')) := by
  cases hget : ops.get mem.cache k with
  | some mv =>
    cases mv with
    | InProgress => rw [run_call_inprogress ops userF fuel k mem hget] at hok; cases hok
    | Finished w =>
      rw [run_call_finished ops userF fuel k w mem hget] at hok
      cases hok
      exact Or.inl ⟨rfl, rfl⟩
  | none =>
    cases hsave : saveDecision mem k with
    | true =>
      obtain ⟨c1, hins⟩ := hL.insert_of_absent mem.cache k .InProgress hget
      rw [run_call_miss_save ops userF fuel k mem c1 hget hsave hins] at hok
      cases hrun : run ops userF fuel (.exec (userF k)) ⟨c1, mem.memo_predicate⟩ with
      | error e => rw [hrun] at hok; cases hok
      | ok p =>
        obtain ⟨v2, mem2⟩ := p
        rw [hrun] at hok
        cases hok
        exact Or.inr (Or.inl ⟨rfl, rfl, c1, mem2, hins, hrun, rfl⟩)
    | false =>
      rw [run_call_miss_nosave ops userF fuel k mem hget hsave] at hok
      cases hrun : run ops userF fuel (.exec (userF k)) mem with
      | error e => rw [hrun] at hok; cases hok
      | ok p =>
        obtain ⟨v2, mem2⟩ := p
        rw [hrun] at hok
        cases hok
        exact Or.inr (Or.inr ⟨rfl, rfl, rfl⟩)

/-- Inversion for a successful run of a `lookup` node of a user program. -/
theorem exec_lookup_ok_inv (fuel : Nat) (k : K) (cont : V → Prog K V)
    (mem mem' : Memoizer S K V) (v : V)
    (hok : run ops userF (fuel + 1) (.exec (.lookup k cont)) mem = .ok (v, mem')) :
    ∃ v1 mem1, run ops userF fuel (.call k) mem = .ok (v1, mem1) ∧
      run ops userF fuel (.exec (cont v1)) mem1 = .ok (v, mem') := by
  rw [run_exec_lookup] at hok
  cases hcall : run ops userF fuel (.call k) mem with
  | error e => rw [hcall] at hok; cases hok
  | ok p =>
    obtain ⟨v1, mem1⟩ := p
    rw [hcall] at hok
    exact ⟨v1, mem1, rfl, hok⟩

end RunLemmas

section MainLemmas

variable {S K V : Type} (ops : StoreOps S K (MemoVal V)) (userF : K → Prog K V)

theorem slotLE_refl {V : Type} (x : Option (MemoVal V)) : slotLE x x := by
  cases x with
  | none => trivial
  | some mv => cases mv with
    | InProgress => trivial
    | Finished v => rfl

theorem slotLE_trans {V : Type} (x y z : Option (MemoVal V))
    (hxy : slotLE x y) (hyz : slotLE y z) : slotLE x z := by
  cases x with
  | none => trivial
  | some mv =>
    cases mv with
    | InProgress =>
      cases y with
      | none => cases hxy
      | some mv2 =>
        cases z with
        | none => cases mv2 with
          | InProgress => cases hyz
          | Finished w => cases hyz
        | some mv3 => trivial
    | Finished v =>
      cases y with
      | none => cases hxy
      | some mv2 =>
        cases mv2 with
        | InProgress => cases hxy
        | Finished w =>
          cases z with
          | none => cases hyz
          | some mv3 =>
            cases mv3 with
            | InProgress => cases hyz
            | Finished u => exact hxy.trans hyz


/-- A slot that is `InProgress` when a computation starts is still
`InProgress` when the computation returns normally: only the frame that
inserted the marker (an ancestor, which has not yet returned) can replace
it, and any nested `lookup` of that key aborts instead of returning. -/
theorem run_preserves_inprogress (hL : StoreLaws ops) :
    ∀ (fuel : Nat) (job : Job K V) (mem mem' : Memoizer S K V) (v : V) (j : K),
      ops.get mem.cache j = some .InProgress →
      run ops userF fuel job mem = .ok (v, mem') →
      ops.get mem'.cache j = some .InProgress := by
  intro fuel
  induction fuel with
  | zero =>
    intro job mem mem' v j hj hok
    rw [run_zero] at hok
    cases hok
  | succ n ih =>
    intro job mem mem' v j hj hok
    cases job with
    | call k =>
      rcases call_ok_inv ops userF hL n k mem mem' v hok with
        ⟨hfin, rfl⟩ | ⟨hget, hsave, c1, mem2, hins, hrun, rfl⟩ | ⟨hget, hsave, hrun⟩
      · exact hj
      · have hkj : j ≠ k := by
          intro e
          rw [e, hget] at hj
          cases hj
        have h1 : ops.get c1 j = some .InProgress := by
          rw [hL.get_insert_other mem.cache k .InProgress c1 j hins hkj]
          exact hj
        have h2 := ih (.exec (userF k)) ⟨c1, mem.memo_predicate⟩ mem2 v j h1 hrun
        show ops.get (ops.set mem2.cache k (.Finished v)) j = some .InProgress
        rw [hL.get_set_other mem2.cache k (.Finished v) j hkj]
        exact h2
      · exact ih (.exec (userF k)) mem mem' v j hj hrun
    | exec p =>
      cases p with
      | ret w =>
        rw [run_exec_ret] at hok
        cases hok
        exact hj
      | lookup k cont =>
        obtain ⟨v1, mem1, hcall, hcont⟩ :=
          exec_lookup_ok_inv ops userF n k cont mem mem' v hok
        exact ih (.exec (cont v1)) mem1 mem' v j
          (ih (.call k) mem mem1 v1 j hj hcall) hcont
      | lookupImmut k cont =>
        rw [run_exec_lookupImmut] at hok
        exact ih (.exec (cont (lookup_immut ops mem k))) mem mem' v j hj hok
      | setPred q rest =>
        rw [run_exec_setPred] at hok
        exact ih (.exec rest) (set_memo_predicate mem q) mem' v j hj hok

/-- Per-key monotonicity: a computation that returns normally moves every
slot forward (or not at all) along absent → `InProgress` → `Finished`,
never backward, never replacing a `Finished` value by a different one,
and never removing a key. -/
theorem run_mono (hL : StoreLaws ops) :
    ∀ (fuel : Nat) (job : Job K V) (mem mem' : Memoizer S K V) (v : V),
      run ops userF fuel job mem = .ok (v, mem') →
      ∀ j, slotLE (ops.get mem.cache j) (ops.get mem'.cache j) := by
  intro fuel
  induction fuel with
  | zero =>
    intro job mem mem' v hok
    rw [run_zero] at hok
    cases hok
  | succ n ih =>
    intro job mem mem' v hok j
    cases job with
    | call k =>
      rcases call_ok_inv ops userF hL n k mem mem' v hok with
        ⟨hfin, rfl⟩ | ⟨hget, hsave, c1, mem2, hins, hrun, rfl⟩ | ⟨hget, hsave, hrun⟩
      · exact slotLE_refl _
      · by_cases hkj : j = k
        · subst hkj
          rw [hget]
          trivial
        · have e1 : ops.get mem.cache j = ops.get c1 j :=
            (hL.get_insert_other mem.cache k .InProgress c1 j hins hkj).symm
          have e2 := ih (.exec (userF k)) ⟨c1, mem.memo_predicate⟩ mem2 v hrun j
          have e3 : ops.get (ops.set mem2.cache k (.Finished v)) j =
              ops.get mem2.cache j :=
            hL.get_set_other mem2.cache k (.Finished v) j hkj
          rw [e1]
          show slotLE (ops.get c1 j) (ops.get (ops.set mem2.cache k (.Finished v)) j)
          rw [e3]
          exact e2
      · exact ih (.exec (userF k)) mem mem' v hrun j
    | exec p =>
      cases p with
      | ret w =>
        rw [run_exec_ret] at hok
        cases hok
        exact slotLE_refl _
      | lookup k cont =>
        obtain ⟨v1, mem1, hcall, hcont⟩ :=
          exec_lookup_ok_inv ops userF n k cont mem mem' v hok
        exact slotLE_trans _ _ _ (ih (.call k) mem mem1 v1 hcall j)
          (ih (.exec (cont v1)) mem1 mem' v hcont j)
      | lookupImmut k cont =>
        rw [run_exec_lookupImmut] at hok
        exact ih (.exec (cont (lookup_immut ops mem k))) mem mem' v hok j
      | setPred q rest =>
        rw [run_exec_setPred] at hok
        exact ih (.exec rest) (set_memo_predicate mem q) mem' v hok j

/-- The internal-invariant panic (insert conflict on the in-progress
marker) is unreachable: the insert happens only right after the same key
was seen absent, and nothing runs in between. -/
theorem run_no_conflict (hL : StoreLaws ops) :
    ∀ (fuel : Nat) (job : Job K V) (mem : Memoizer S K V),
      hasConflictPanic (run ops userF fuel job mem) = false := by
  intro fuel
  induction fuel with
  | zero =>
    intro job mem
    rw [run_zero]
    rfl
  | succ n ih =>
    intro job mem
    cases job with
    | call k =>
      cases hget : ops.get mem.cache k with
      | some mv =>
        cases mv with
        | InProgress =>
          rw [run_call_inprogress ops userF n k mem hget]
          rfl
        | Finished w =>
          rw [run_call_finished ops userF n k w mem hget]
          rfl
      | none =>
        cases hsave : saveDecision mem k with
        | true =>
          obtain ⟨c1, hins⟩ := hL.insert_of_absent mem.cache k .InProgress hget
          rw [run_call_miss_save ops userF n k mem c1 hget hsave hins]
          cases hrun : run ops userF n (.exec (userF k)) ⟨c1, mem.memo_predicate⟩ with
          | error e =>
            have h := ih (.exec (userF k)) ⟨c1, mem.memo_predicate⟩
            rw [hrun] at h
            exact h
          | ok pr =>
            obtain ⟨v, mem2⟩ := pr
            rfl
        | false =>
          rw [run_call_miss_nosave ops userF n k mem hget hsave]
          cases hrun : run ops userF n (.exec (userF k)) mem with
          | error e =>
            have h := ih (.exec (userF k)) mem
            rw [hrun] at h
            exact h
          | ok pr =>
            obtain ⟨v, mem2⟩ := pr
            rfl
    | exec p =>
      cases p with
      | ret w => rfl
      | lookup k cont =>
        rw [run_exec_lookup]
        cases hcall : run ops userF n (.call k) mem with
        | error e =>
          have h := ih (.call k) mem
          rw [hcall] at h
          exact h
        | ok pr =>
          obtain ⟨v1, mem1⟩ := pr
          exact ih (.exec (cont v1)) mem1
      | lookupImmut k cont =>
        rw [run_exec_lookupImmut]
        exact ih (.exec (cont (lookup_immut ops mem k))) mem
      | setPred q rest =>
        rw [run_exec_setPred]
        exact ih (.exec rest) (set_memo_predicate mem q)

/-- With a fixed predicate `p` installed and a user function that never
replaces it, a normally-returning computation leaves the predicate in
place and never touches the slot of any key on which `p` is false. -/
theorem run_pred_skip (hL : StoreLaws ops) (p : K → Bool)
    (hfree : ∀ k, (userF k).predFree) :
    ∀ (fuel : Nat) (job : Job K V) (mem mem' : Memoizer S K V) (v : V),
      mem.memo_predicate = some p →
      job.predFree →
      run ops userF fuel job mem = .ok (v, mem') →
      mem'.memo_predicate = some p ∧
        ∀ j, p j = false → ops.get mem'.cache j = ops.get mem.cache j := by
  intro fuel
  induction fuel with
  | zero =>
    intro job mem mem' v hp hjob hok
    rw [run_zero] at hok
    cases hok
  | succ n ih =>
    intro job mem mem' v hp hjob hok
    cases job with
    | call k =>
      rcases call_ok_inv ops userF hL n k mem mem' v hok with
        ⟨hfin, rfl⟩ | ⟨hget, hsave, c1, mem2, hins, hrun, rfl⟩ | ⟨hget, hsave, hrun⟩
      · exact ⟨hp, fun j _ => rfl⟩
      · have hpk : p k = true := by
          rw [saveDecision, hp] at hsave
          exact hsave
        obtain ⟨h1, h2⟩ := ih (.exec (userF k)) ⟨c1, mem.memo_predicate⟩ mem2 v hp
          (hfree k) hrun
        refine ⟨h1, ?_⟩
        intro j hj
        have hkj : j ≠ k := by
          intro e
          rw [e, hpk] at hj
          cases hj
        show ops.get (ops.set mem2.cache k (.Finished v)) j = ops.get mem.cache j
        rw [hL.get_set_other mem2.cache k (.Finished v) j hkj, h2 j hj,
          hL.get_insert_other mem.cache k .InProgress c1 j hins hkj]
      · exact ih (.exec (userF k)) mem mem' v hp (hfree k) hrun
    | exec pr =>
      cases pr with
      | ret w =>
        rw [run_exec_ret] at hok
        cases hok
        exact ⟨hp, fun j _ => rfl⟩
      | lookup k cont =>
        obtain ⟨v1, mem1, hcall, hcont⟩ :=
          exec_lookup_ok_inv ops userF n k cont mem mem' v hok
        obtain ⟨h1, h2⟩ := ih (.call k) mem mem1 v1 hp trivial hcall
        obtain ⟨h3, h4⟩ := ih (.exec (cont v1)) mem1 mem' v h1 (hjob v1) hcont
        exact ⟨h3, fun j hj => (h4 j hj).trans (h2 j hj)⟩
      | lookupImmut k cont =>
        rw [run_exec_lookupImmut] at hok
        exact ih (.exec (cont (lookup_immut ops mem k))) mem mem' v hp
          (hjob (lookup_immut ops mem k)) hok
      | setPred q rest =>
        exact absurd hjob (by simp [Job.predFree, Prog.predFree])

/-- After a `lookup` that returns normally, if the save decision for the
requested key was positive (predicate absent or true on it), the store
holds the returned value as a `Finished` slot for that key. -/
theorem lookup_ok_saved (hL : StoreLaws ops) (fuel : Nat) (k : K)
    (mem mem' : Memoizer S K V) (v : V) (hsave : saveDecision mem k = true)
    (hok : run ops userF fuel (.call k) mem = .ok (v, mem')) :
    ops.get mem'.cache k = some (.Finished v) := by
  cases fuel with
  | zero =>
    rw [run_zero] at hok
    cases hok
  | succ n =>
    rcases call_ok_inv ops userF hL n k mem mem' v hok with
      ⟨hfin, rfl⟩ | ⟨hget, hsave2, c1, mem2, hins, hrun, rfl⟩ | ⟨hget, hsave2, hrun⟩
    · exact hfin
    · have h1 : ops.get c1 k = some .InProgress :=
        hL.get_insert_self mem.cache k .InProgress c1 hins
      have h2 := run_preserves_inprogress ops userF hL n (.exec (userF k))
        ⟨c1, mem.memo_predicate⟩ mem2 v k h1 hrun
      show ops.get (ops.set mem2.cache k (.Finished v)) k = some (.Finished v)
      exact hL.get_set_self mem2.cache k (.Finished v) .InProgress h2
    · rw [hsave] at hsave2
      cases hsave2

/-- When the save decision for the requested key is negative, no
`InProgress` marker is planted, so the directly self-referential user
function re-misses the same key forever: for every fuel bound the lookup
exhausts its fuel — the embedding's rendering of an infinite recursion —
instead of failing with the circular-dependency panic. -/
theorem selfLoop_unsaved_diverges (mem : Memoizer S K V) (k : K)
    (hget : ops.get mem.cache k = none) (hsave : saveDecision mem k = false) :
    ∀ fuel, run ops selfLoop fuel (.call k) mem = .error .outOfFuel ∧
      run ops selfLoop fuel (.exec (selfLoop k)) mem = .error .outOfFuel := by
  intro fuel
  induction fuel with
  | zero => exact ⟨run_zero ops selfLoop _ mem, run_zero ops selfLoop _ mem⟩
  | succ n ih =>
    constructor
    · rw [run_call_miss_nosave ops selfLoop n k mem hget hsave, ih.2]
    · show run ops selfLoop (n + 1) (.exec (.lookup k (fun v => .ret v))) mem =
        .error .outOfFuel
      rw [run_exec_lookup, ih.1]

end MainLemmas

section Bisimulation

variable {S1 S2 K V : Type} (ops1 : StoreOps S1 K (MemoVal V))
  (ops2 : StoreOps S2 K (MemoVal V)) (userF : K → Prog K V)

theorem memRel_lookup_immut (m1 : Memoizer S1 K V) (m2 : Memoizer S2 K V)
    (hrel : MemRel ops1 ops2 m1 m2) (k : K) :
    lookup_immut ops1 m1 k = lookup_immut ops2 m2 k := by
  rw [lookup_immut, lookup_immut, hrel.1 k]

theorem runCalls_lookup_err {S : Type} (ops : StoreOps S K (MemoVal V))
    (fuel : Nat) (k : K) (rest : List (Call K)) (mem : Memoizer S K V) (e : Err K)
    (h : run ops userF fuel (.call k) mem = .error e) :
    runCalls ops userF fuel (.lookup k :: rest) mem = .error e := by
  rw [runCalls]
  rw [show lookup ops userF fuel mem k = .error e from h]

theorem runCalls_lookup_ok_err {S : Type} (ops : StoreOps S K (MemoVal V))
    (fuel : Nat) (k : K) (rest : List (Call K)) (mem mem2 : Memoizer S K V)
    (v : V) (e : Err K)
    (h : run ops userF fuel (.call k) mem = .ok (v, mem2))
    (h2 : runCalls ops userF fuel rest mem2 = .error e) :
    runCalls ops userF fuel (.lookup k :: rest) mem = .error e := by
  simp only [runCalls, show lookup ops userF fuel mem k = .ok (v, mem2) from h, h2]

theorem runCalls_lookup_ok_ok {S : Type} (ops : StoreOps S K (MemoVal V))
    (fuel : Nat) (k : K) (rest : List (Call K)) (mem mem2 memF : Memoizer S K V)
    (v : V) (rs : List (CallRes V))
    (h : run ops userF fuel (.call k) mem = .ok (v, mem2))
    (h2 : runCalls ops userF fuel rest mem2 = .ok (rs, memF)) :
    runCalls ops userF fuel (.lookup k :: rest) mem = .ok (.val v :: rs, memF) := by
  simp only [runCalls, show lookup ops userF fuel mem k = .ok (v, mem2) from h, h2]

/-- Lockstep bisimulation: over observationally equal stores, the same
computation produces the same value or the same abnormal outcome, and
leaves the stores observationally equal. -/
theorem run_bisim (hL1 : StoreLaws ops1) (hL2 : StoreLaws ops2) :
    ∀ (fuel : Nat) (job : Job K V) (m1 : Memoizer S1 K V) (m2 : Memoizer S2 K V),
      MemRel ops1 ops2 m1 m2 →
      ResRel ops1 ops2 (run ops1 userF fuel job m1) (run ops2 userF fuel job m2) := by
  intro fuel
  induction fuel with
  | zero =>
    intro job m1 m2 hrel
    rw [run_zero, run_zero]
    rfl
  | succ n ih =>
    intro job m1 m2 hrel
    cases job with
    | call k =>
      have hget : ops1.get m1.cache k = ops2.get m2.cache k := hrel.1 k
      cases h2 : ops2.get m2.cache k with
      | some mv =>
        have h1 : ops1.get m1.cache k = some mv := by rw [hget, h2]
        cases mv with
        | InProgress =>
          rw [run_call_inprogress ops1 userF n k m1 h1,
            run_call_inprogress ops2 userF n k m2 h2]
          rfl
        | Finished w =>
          rw [run_call_finished ops1 userF n k w m1 h1,
            run_call_finished ops2 userF n k w m2 h2]
          exact ⟨rfl, hrel⟩
      | none =>
        have h1 : ops1.get m1.cache k = none := by rw [hget, h2]
        have hsd : saveDecision m1 k = saveDecision m2 k := by
          rw [saveDecision, saveDecision, hrel.2]
        cases hsave2 : saveDecision m2 k with
        | true =>
          have hsave1 : saveDecision m1 k = true := by rw [hsd, hsave2]
          obtain ⟨c1, hins1⟩ := hL1.insert_of_absent m1.cache k .InProgress h1
          obtain ⟨c2, hins2⟩ := hL2.insert_of_absent m2.cache k .InProgress h2
          rw [run_call_miss_save ops1 userF n k m1 c1 h1 hsave1 hins1,
            run_call_miss_save ops2 userF n k m2 c2 h2 hsave2 hins2]
          have hrelc : MemRel ops1 ops2 ⟨c1, m1.memo_predicate⟩ ⟨c2, m2.memo_predicate⟩ := by
            refine ⟨fun j => ?_, hrel.2⟩
            by_cases hjk : j = k
            · subst hjk
              rw [hL1.get_insert_self m1.cache j .InProgress c1 hins1,
                hL2.get_insert_self m2.cache j .InProgress c2 hins2]
            · rw [hL1.get_insert_other m1.cache k .InProgress c1 j hins1 hjk,
                hL2.get_insert_other m2.cache k .InProgress c2 j hins2 hjk,
                hrel.1 j]
          have hstep := ih (.exec (userF k)) ⟨c1, m1.memo_predicate⟩
            ⟨c2, m2.memo_predicate⟩ hrelc
          cases hr1 : run ops1 userF n (.exec (userF k)) ⟨c1, m1.memo_predicate⟩ with
          | error e1 =>
            cases hr2 : run ops2 userF n (.exec (userF k)) ⟨c2, m2.memo_predicate⟩ with
            | error e2 =>
              rw [hr1, hr2] at hstep
              have he : e1 = e2 := hstep
              rw [he]
              rfl
            | ok p2 =>
              rw [hr1, hr2] at hstep
              obtain ⟨v2, m2c⟩ := p2
              cases hstep
          | ok p1 =>
            obtain ⟨v1, m1c⟩ := p1
            cases hr2 : run ops2 userF n (.exec (userF k)) ⟨c2, m2.memo_predicate⟩ with
            | error e2 =>
              rw [hr1, hr2] at hstep
              cases hstep
            | ok p2 =>
              obtain ⟨v2, m2c⟩ := p2
              rw [hr1, hr2] at hstep
              obtain ⟨hv, hrelc2⟩ := hstep
              subst hv
              have hip1 : ops1.get m1c.cache k = some .InProgress :=
                run_preserves_inprogress ops1 userF hL1 n (.exec (userF k))
                  ⟨c1, m1.memo_predicate⟩ m1c v1 k
                  (hL1.get_insert_self m1.cache k .InProgress c1 hins1) hr1
              have hip2 : ops2.get m2c.cache k = some .InProgress :=
                run_preserves_inprogress ops2 userF hL2 n (.exec (userF k))
                  ⟨c2, m2.memo_predicate⟩ m2c v1 k
                  (hL2.get_insert_self m2.cache k .InProgress c2 hins2) hr2
              refine ⟨rfl, fun j => ?_, hrelc2.2⟩
              by_cases hjk : j = k
              · subst hjk
                rw [hL1.get_set_self m1c.cache j (.Finished v1) .InProgress hip1,
                  hL2.get_set_self m2c.cache j (.Finished v1) .InProgress hip2]
              · rw [hL1.get_set_other m1c.cache k (.Finished v1) j hjk,
                  hL2.get_set_other m2c.cache k (.Finished v1) j hjk,
                  hrelc2.1 j]
        | false =>
          have hsave1 : saveDecision m1 k = false := by rw [hsd, hsave2]
          rw [run_call_miss_nosave ops1 userF n k m1 h1 hsave1,
            run_call_miss_nosave ops2 userF n k m2 h2 hsave2]
          have hstep := ih (.exec (userF k)) m1 m2 hrel
          cases hr1 : run ops1 userF n (.exec (userF k)) m1 with
          | error e1 =>
            cases hr2 : run ops2 userF n (.exec (userF k)) m2 with
            | error e2 =>
              rw [hr1, hr2] at hstep
              have he : e1 = e2 := hstep
              rw [he]
              rfl
            | ok p2 =>
              rw [hr1, hr2] at hstep
              obtain ⟨v2, m2c⟩ := p2
              cases hstep
          | ok p1 =>
            obtain ⟨v1, m1c⟩ := p1
            cases hr2 : run ops2 userF n (.exec (userF k)) m2 with
            | error e2 =>
              rw [hr1, hr2] at hstep
              cases hstep
            | ok p2 =>
              obtain ⟨v2, m2c⟩ := p2
              rw [hr1, hr2] at hstep
              exact hstep
    | exec p =>
      cases p with
      | ret w =>
        rw [run_exec_ret, run_exec_ret]
        exact ⟨rfl, hrel⟩
      | lookup k cont =>
        rw [run_exec_lookup, run_exec_lookup]
        have hstep := ih (.call k) m1 m2 hrel
        cases hr1 : run ops1 userF n (.call k) m1 with
        | error e1 =>
          cases hr2 : run ops2 userF n (.call k) m2 with
          | error e2 =>
            rw [hr1, hr2] at hstep
            have he : e1 = e2 := hstep
            rw [he]
            rfl
          | ok p2 =>
            rw [hr1, hr2] at hstep
            obtain ⟨v2, m2c⟩ := p2
            cases hstep
        | ok p1 =>
          obtain ⟨v1, m1c⟩ := p1
          cases hr2 : run ops2 userF n (.call k) m2 with
          | error e2 =>
            rw [hr1, hr2] at hstep
            cases hstep
          | ok p2 =>
            obtain ⟨v2, m2c⟩ := p2
            rw [hr1, hr2] at hstep
            obtain ⟨hv, hrelc⟩ := hstep
            subst hv
            exact ih (.exec (cont v1)) m1c m2c hrelc
      | lookupImmut k cont =>
        rw [run_exec_lookupImmut, run_exec_lookupImmut,
          memRel_lookup_immut ops1 ops2 m1 m2 hrel k]
        exact ih (.exec (cont (lookup_immut ops2 m2 k))) m1 m2 hrel
      | setPred q rest =>
        rw [run_exec_setPred, run_exec_setPred]
        exact ih (.exec rest) (set_memo_predicate m1 q) (set_memo_predicate m2 q)
          ⟨hrel.1, rfl⟩

/-- Lockstep bisimulation for whole call sequences. -/
theorem runCalls_bisim (hL1 : StoreLaws ops1) (hL2 : StoreLaws ops2) (fuel : Nat) :
    ∀ (calls : List (Call K)) (m1 : Memoizer S1 K V) (m2 : Memoizer S2 K V),
      MemRel ops1 ops2 m1 m2 →
      CallsRel ops1 ops2 (runCalls ops1 userF fuel calls m1)
        (runCalls ops2 userF fuel calls m2) := by
  intro calls
  induction calls with
  | nil =>
    intro m1 m2 hrel
    exact ⟨rfl, hrel⟩
  | cons c rest ih =>
    intro m1 m2 hrel
    cases c with
    | lookup k =>
      have hstep := run_bisim ops1 ops2 userF hL1 hL2 fuel (.call k) m1 m2 hrel
      cases hr1 : run ops1 userF fuel (.call k) m1 with
      | error e1 =>
        cases hr2 : run ops2 userF fuel (.call k) m2 with
        | error e2 =>
          rw [hr1, hr2] at hstep
          have he : e1 = e2 := hstep
          rw [runCalls_lookup_err userF ops1 fuel k rest m1 e1 hr1,
            runCalls_lookup_err userF ops2 fuel k rest m2 e2 hr2, he]
          rfl
        | ok p2 =>
          rw [hr1, hr2] at hstep
          obtain ⟨v2, m2c⟩ := p2
          cases hstep
      | ok p1 =>
        obtain ⟨v1, m1c⟩ := p1
        cases hr2 : run ops2 userF fuel (.call k) m2 with
        | error e2 =>
          rw [hr1, hr2] at hstep
          cases hstep
        | ok p2 =>
          obtain ⟨v2, m2c⟩ := p2
          rw [hr1, hr2] at hstep
          obtain ⟨hv, hrelc⟩ := hstep
          subst hv
          have hrest := ih m1c m2c hrelc
          cases hc1 : runCalls ops1 userF fuel rest m1c with
          | error e1 =>
            cases hc2 : runCalls ops2 userF fuel rest m2c with
            | error e2 =>
              rw [hc1, hc2] at hrest
              have he : e1 = e2 := hrest
              rw [runCalls_lookup_ok_err userF ops1 fuel k rest m1 m1c v1 e1 hr1 hc1,
                runCalls_lookup_ok_err userF ops2 fuel k rest m2 m2c v1 e2 hr2 hc2, he]
              rfl
            | ok q2 =>
              rw [hc1, hc2] at hrest
              obtain ⟨rs2, mF2⟩ := q2
              cases hrest
          | ok q1 =>
            obtain ⟨rs1, mF1⟩ := q1
            cases hc2 : runCalls ops2 userF fuel rest m2c with
            | error e2 =>
              rw [hc1, hc2] at hrest
              cases hrest
            | ok q2 =>
              obtain ⟨rs2, mF2⟩ := q2
              rw [hc1, hc2] at hrest
              obtain ⟨hrs, hrelF⟩ := hrest
              subst hrs
              rw [runCalls_lookup_ok_ok userF ops1 fuel k rest m1 m1c mF1 v1 rs1 hr1 hc1,
                runCalls_lookup_ok_ok userF ops2 fuel k rest m2 m2c mF2 v1 rs1 hr2 hc2]
              exact ⟨rfl, hrelF⟩
    | lookupImmut k =>
      rw [runCalls, runCalls]
      have hrest := ih m1 m2 hrel
      have hli := memRel_lookup_immut ops1 ops2 m1 m2 hrel k
      cases hc1 : runCalls ops1 userF fuel rest m1 with
      | error e1 =>
        cases hc2 : runCalls ops2 userF fuel rest m2 with
        | error e2 =>
          rw [hc1, hc2] at hrest
          have he : e1 = e2 := hrest
          rw [he]
          rfl
        | ok q2 =>
          rw [hc1, hc2] at hrest
          obtain ⟨rs2, mF2⟩ := q2
          cases hrest
      | ok q1 =>
        obtain ⟨rs1, mF1⟩ := q1
        cases hc2 : runCalls ops2 userF fuel rest m2 with
        | error e2 =>
          rw [hc1, hc2] at hrest
          cases hrest
        | ok q2 =>
          obtain ⟨rs2, mF2⟩ := q2
          rw [hc1, hc2] at hrest
          obtain ⟨hrs, hrelF⟩ := hrest
          subst hrs
          rw [hli]
          exact ⟨rfl, hrelF⟩
    | setPred q =>
      rw [runCalls, runCalls]
      have hrest := ih (set_memo_predicate m1 q) (set_memo_predicate m2 q)
        ⟨hrel.1, rfl⟩
      cases hc1 : runCalls ops1 userF fuel rest (set_memo_predicate m1 q) with
      | error e1 =>
        cases hc2 : runCalls ops2 userF fuel rest (set_memo_predicate m2 q) with
        | error e2 =>
          rw [hc1, hc2] at hrest
          have he : e1 = e2 := hrest
          rw [he]
          rfl
        | ok q2 =>
          rw [hc1, hc2] at hrest
          obtain ⟨rs2, mF2⟩ := q2
          cases hrest
      | ok q1 =>
        obtain ⟨rs1, mF1⟩ := q1
        cases hc2 : runCalls ops2 userF fuel rest (set_memo_predicate m2 q) with
        | error e2 =>
          rw [hc1, hc2] at hrest
          cases hrest
        | ok q2 =>
          obtain ⟨rs2, mF2⟩ := q2
          rw [hc1, hc2] at hrest
          obtain ⟨hrs, hrelF⟩ := hrest
          subst hrs
          exact ⟨rfl, hrelF⟩

end Bisimulation

section Claims

/-- Claim C1 (amended): whenever `lookup` finds an `InProgress` slot for
the requested key, it aborts with the circular-dependency failure naming
that key (first conjunct, for any user function and any state); and a
user function whose computation of `k` immediately looks `k` up again is
aborted with that failure — for every fuel bound, so it neither diverges
nor returns a value — provided the save decision for `k` is positive
(predicate absent or true on `k`), which is what plants the marker before
the user function runs (second conjunct).  The proviso is the amendment:
a key the predicate excludes gets no marker, and a self-dependent
computation of it recurses undetected (see the counterexample). -/
theorem claim1_cycle_detection {S K V : Type} (ops : StoreOps S K (MemoVal V))
    (hL : StoreLaws ops) :
    (∀ (userF : K → Prog K V) (fuel : Nat) (mem : Memoizer S K V) (k : K),
      ops.get mem.cache k = some .InProgress →
      lookup ops userF (fuel + 1) mem k = .error (.circular k)) ∧
    (∀ (fuel : Nat) (mem : Memoizer S K V) (k : K),
      ops.get mem.cache k = none → saveDecision mem k = true →
      lookup ops selfLoop (fuel + 3) mem k = .error (.circular k)) := by
  constructor
  · intro userF fuel mem k h
    exact run_call_inprogress ops userF fuel k mem h
  · intro fuel mem k hget hsave
    obtain ⟨c1, hins⟩ := hL.insert_of_absent mem.cache k .InProgress hget
    show run ops selfLoop (fuel + 2 + 1) (.call k) mem = .error (.circular k)
    rw [run_call_miss_save ops selfLoop (fuel + 2) k mem c1 hget hsave hins]
    have hip : ops.get c1 k = some .InProgress :=
      hL.get_insert_self mem.cache k .InProgress c1 hins
    have hinner : run ops selfLoop (fuel + 2) (.exec (selfLoop k))
        ⟨c1, mem.memo_predicate⟩ = .error (.circular k) := by
      show run ops selfLoop (fuel + 1 + 1) (.exec (.lookup k (fun v => .ret v)))
        ⟨c1, mem.memo_predicate⟩ = .error (.circular k)
      rw [run_exec_lookup]
      rw [run_call_inprogress ops selfLoop fuel k ⟨c1, mem.memo_predicate⟩ hip]
    rw [hinner]

theorem claim1_cycle_detection_witness :
    lookup hashOps (fun _ => Prog.ret 0) 1
      (⟨[((1 : Nat), MemoVal.InProgress)], none⟩ :
        Memoizer (List (Nat × MemoVal Nat)) Nat Nat) 1 = .error (.circular 1) ∧
    lookup hashOps selfLoop 3
      (⟨[], none⟩ : Memoizer (List (Nat × MemoVal Nat)) Nat Nat) 0 =
      .error (.circular 0) :=
  ⟨(claim1_cycle_detection hashOps hashLaws).1 (fun _ => Prog.ret 0) 0
      ⟨[(1, MemoVal.InProgress)], none⟩ 1 rfl,
    (claim1_cycle_detection hashOps hashLaws).2 0 ⟨[], none⟩ 0 rfl rfl⟩

/-- Claim C1, counterexample to the unamended claim: with the always-false
predicate installed, the directly self-referential user function makes
`lookup 0` exhaust any fuel bound (here 100) — the embedding's rendering
of the infinite recursion the unamended claim rules out — rather than
abort with the circular-dependency failure, because no `InProgress`
marker is ever planted for an excluded key. -/
theorem claim1_cycle_detection_counterexample :
    lookup hashOps selfLoop 100
      (⟨[], some (fun _ => false)⟩ : Memoizer (List (Nat × MemoVal Nat)) Nat Nat)
      0 = .error .outOfFuel :=
  (selfLoop_unsaved_diverges hashOps ⟨[], some (fun _ => false)⟩ 0 rfl rfl 100).1

/-- Claim C2: with no memoization predicate installed, a `lookup` that
returns normally leaves the requested key persisted as a `Finished` slot
holding the returned value — the cache-everything default policy. -/
theorem claim2_default_policy_persists {S K V : Type}
    (ops : StoreOps S K (MemoVal V)) (userF : K → Prog K V) (hL : StoreLaws ops)
    (fuel : Nat) (mem mem' : Memoizer S K V) (v : V) (k : K)
    (hpred : mem.memo_predicate = none)
    (hok : lookup ops userF fuel mem k = .ok (v, mem')) :
    ops.get mem'.cache k = some (.Finished v) := by
  have hsave : saveDecision mem k = true := by
    rw [saveDecision, hpred]
    rfl
  exact lookup_ok_saved ops userF hL fuel k mem mem' v hsave hok

theorem claim2_default_policy_persists_witness :
    (hashOps : StoreOps (List (Nat × MemoVal Nat)) Nat (MemoVal Nat)).get
      [(5, MemoVal.Finished 6)] 5 = some (.Finished 6) :=
  claim2_default_policy_persists hashOps (fun n => Prog.ret (n + 1)) hashLaws 2
    ⟨[], none⟩ ⟨[(5, MemoVal.Finished 6)], none⟩ 6 5 rfl (by rfl)

/-- Claim C3: when the save decision for a key is positive (no predicate,
or the predicate holds on it), a second `lookup` right after a successful
one returns the same value with the memoizer unchanged — a pure cache hit
that does not re-enter the user function. -/
theorem claim3_idempotent_second_hit {S K V : Type}
    (ops : StoreOps S K (MemoVal V)) (userF : K → Prog K V) (hL : StoreLaws ops)
    (fuel fuel2 : Nat) (mem mem' : Memoizer S K V) (v : V) (k : K)
    (hsave : saveDecision mem k = true)
    (hok : lookup ops userF fuel mem k = .ok (v, mem')) :
    lookup ops userF (fuel2 + 1) mem' k = .ok (v, mem') :=
  run_call_finished ops userF fuel2 k v mem'
    (lookup_ok_saved ops userF hL fuel k mem mem' v hsave hok)

theorem claim3_idempotent_second_hit_witness :
    lookup hashOps (fun n => Prog.ret (n * 2)) 1
      (⟨[(7, MemoVal.Finished 14)], none⟩ :
        Memoizer (List (Nat × MemoVal Nat)) Nat Nat) 7 =
      .ok (14, ⟨[(7, MemoVal.Finished 14)], none⟩) :=
  claim3_idempotent_second_hit hashOps (fun n => Prog.ret (n * 2)) hashLaws 2 0
    ⟨[], none⟩ ⟨[(7, MemoVal.Finished 14)], none⟩ 14 7 rfl (by rfl)

/-- Claim C4: `lookup_immut` returns `some v` exactly when the store holds
a `Finished v` slot for the key, and returns `none` both on an absent key
and on an `InProgress` slot.  It is non-mutating by construction (it
returns only an `Option V`, no memoizer), never runs the user function
(its definition does not take one) and never consults the predicate (its
definition does not read `memo_predicate`). -/
theorem claim4_lookup_immut_semantics {S K V : Type}
    (ops : StoreOps S K (MemoVal V)) (mem : Memoizer S K V) (k : K) :
    (∀ v, lookup_immut ops mem k = some v ↔
      ops.get mem.cache k = some (.Finished v)) ∧
    (ops.get mem.cache k = none → lookup_immut ops mem k = none) ∧
    (ops.get mem.cache k = some .InProgress → lookup_immut ops mem k = none) := by
  refine ⟨fun v => ?_, fun h => ?_, fun h => ?_⟩
  · cases hget : ops.get mem.cache k with
    | none => simp [lookup_immut, hget]
    | some mv =>
      cases mv with
      | InProgress => simp [lookup_immut, hget]
      | Finished w => simp [lookup_immut, hget]
  · simp [lookup_immut, h]
  · simp [lookup_immut, h]

theorem claim4_lookup_immut_semantics_witness :
    lookup_immut hashOps
      (⟨[(1, MemoVal.Finished 5), (2, MemoVal.InProgress)], none⟩ :
        Memoizer (List (Nat × MemoVal Nat)) Nat Nat) 1 = some 5 ∧
    lookup_immut hashOps
      (⟨[(1, MemoVal.Finished 5), (2, MemoVal.InProgress)], none⟩ :
        Memoizer (List (Nat × MemoVal Nat)) Nat Nat) 2 = none ∧
    lookup_immut hashOps
      (⟨[(1, MemoVal.Finished 5), (2, MemoVal.InProgress)], none⟩ :
        Memoizer (List (Nat × MemoVal Nat)) Nat Nat) 3 = none :=
  ⟨((claim4_lookup_immut_semantics hashOps
      ⟨[(1, MemoVal.Finished 5), (2, MemoVal.InProgress)], none⟩ 1).1 5).2 rfl,
    (claim4_lookup_immut_semantics hashOps
      ⟨[(1, MemoVal.Finished 5), (2, MemoVal.InProgress)], none⟩ 2).2.2 rfl,
    (claim4_lookup_immut_semantics hashOps
      ⟨[(1, MemoVal.Finished 5), (2, MemoVal.InProgress)], none⟩ 3).2.1 rfl⟩

/-- Claim C5: with the predicate that is false on even keys and true on
odd keys installed, and a user function that never replaces the predicate,
a successful `lookup` of an initially absent key leaves an even key out of
the store (`lookup_immut` is `none`) and an odd key persisted
(`lookup_immut` returns the computed value); in both cases `lookup`
itself returned the computed value `v`. -/
theorem claim5_predicate_opt_out {S V : Type}
    (ops : StoreOps S Nat (MemoVal V)) (userF : Nat → Prog Nat V)
    (hL : StoreLaws ops) (hfree : ∀ k, (userF k).predFree)
    (fuel : Nat) (mem mem' : Memoizer S Nat V) (v : V) (k : Nat)
    (hpred : mem.memo_predicate = some oddKeysOnly)
    (habs : ops.get mem.cache k = none)
    (hok : lookup ops userF fuel mem k = .ok (v, mem')) :
    (k % 2 = 0 → lookup_immut ops mem' k = none) ∧
    (k % 2 = 1 → lookup_immut ops mem' k = some v) := by
  constructor
  · intro heven
    have hfalse : oddKeysOnly k = false := by
      simp [oddKeysOnly, heven]
    obtain ⟨h1, h2⟩ := run_pred_skip ops userF hL oddKeysOnly hfree fuel
      (.call k) mem mem' v hpred trivial hok
    have hnone : ops.get mem'.cache k = none := by
      rw [h2 k hfalse, habs]
    simp [lookup_immut, hnone]
  · intro hodd
    have hsave : saveDecision mem k = true := by
      rw [saveDecision, hpred]
      simp [oddKeysOnly, hodd]
    have hfin := lookup_ok_saved ops userF hL fuel k mem mem' v hsave hok
    simp [lookup_immut, hfin]

theorem claim5_predicate_opt_out_witness :
    lookup_immut hashOps
      (⟨[], some oddKeysOnly⟩ : Memoizer (List (Nat × MemoVal Nat)) Nat Nat) 2 =
      none ∧
    lookup_immut hashOps
      (⟨[(3, MemoVal.Finished 30)], some oddKeysOnly⟩ :
        Memoizer (List (Nat × MemoVal Nat)) Nat Nat) 3 = some 30 :=
  ⟨(claim5_predicate_opt_out hashOps (fun n => Prog.ret (n * 10)) hashLaws
      (fun _ => True.intro) 2 ⟨[], some oddKeysOnly⟩ ⟨[], some oddKeysOnly⟩
      20 2 rfl rfl (by rfl)).1 rfl,
    (claim5_predicate_opt_out hashOps (fun n => Prog.ret (n * 10)) hashLaws
      (fun _ => True.intro) 2 ⟨[], some oddKeysOnly⟩
      ⟨[(3, MemoVal.Finished 30)], some oddKeysOnly⟩ 30 3 rfl rfl (by rfl)).2 rfl⟩

/-- Claim C6: every slot evolves monotonically along
absent → `InProgress` → `Finished v` across a normally-returning `lookup`
(no backward transition, no `Finished` value replaced by a different one,
no key removed), and `set_memo_predicate` leaves the cache untouched;
`lookup_immut` is non-mutating by construction (it returns no memoizer). -/
theorem claim6_monotonic_slots {S K V : Type}
    (ops : StoreOps S K (MemoVal V)) (userF : K → Prog K V) (hL : StoreLaws ops) :
    (∀ (fuel : Nat) (mem mem' : Memoizer S K V) (v : V) (k : K),
      lookup ops userF fuel mem k = .ok (v, mem') →
      ∀ j, slotLE (ops.get mem.cache j) (ops.get mem'.cache j)) ∧
    (∀ (mem : Memoizer S K V) (p : K → Bool),
      (set_memo_predicate mem p).cache = mem.cache) :=
  ⟨fun fuel mem mem' v k hok j =>
      run_mono ops userF hL fuel (.call k) mem mem' v hok j,
    fun _ _ => rfl⟩

theorem claim6_monotonic_slots_witness :
    slotLE ((hashOps : StoreOps (List (Nat × MemoVal Nat)) Nat (MemoVal Nat)).get
        [] 4)
      (hashOps.get [(4, MemoVal.Finished 4)] 4) ∧
    (set_memo_predicate
        (⟨[], none⟩ : Memoizer (List (Nat × MemoVal Nat)) Nat Nat)
        (fun _ => false)).cache = [] :=
  ⟨(claim6_monotonic_slots hashOps (fun n => Prog.ret n) hashLaws).1 2
      ⟨[], none⟩ ⟨[(4, MemoVal.Finished 4)], none⟩ 4 4 (by rfl) 4,
    (claim6_monotonic_slots hashOps (fun n => Prog.ret n) hashLaws).2
      ⟨[], none⟩ (fun _ => false)⟩

/-- Claim C7: the internal-invariant panic — an insert of the in-progress
marker colliding with an existing entry — is unreachable in any execution
of `lookup`, for every user function, fuel, state and key: the insert is
guarded by the immediately preceding absence check and nothing runs in
between. -/
theorem claim7_conflict_unreachable {S K V : Type}
    (ops : StoreOps S K (MemoVal V)) (userF : K → Prog K V) (hL : StoreLaws ops) :
    ∀ (fuel : Nat) (mem : Memoizer S K V) (k : K),
      hasConflictPanic (lookup ops userF fuel mem k) = false :=
  fun fuel mem k => run_no_conflict ops userF hL fuel (.call k) mem

theorem claim7_conflict_unreachable_witness :
    hasConflictPanic (lookup hashOps (fun n => Prog.ret n) 5
      (⟨[], none⟩ : Memoizer (List (Nat × MemoVal Nat)) Nat Nat) 9) = false :=
  claim7_conflict_unreachable hashOps (fun n => Prog.ret n) hashLaws 5 ⟨[], none⟩ 9

/-- Claim C8: for every user function and sequence of public calls, the
memoizer built on the hash-map realization and the one built on the
ordered-map realization produce identical observable results at every
step (values returned, read-only lookups, and abnormal outcomes): the two
backing stores are observationally equivalent behind the
insert/get/get_mut interface. -/
theorem claim8_backend_equivalence {K V : Type} [LinearOrder K] [DecidableEq K]
    (userF : K → Prog K V) (fuel : Nat) (calls : List (Call K)) :
    (runCalls hashOps userF fuel calls new_hash).map Prod.fst =
      (runCalls ordOps userF fuel calls new_ord).map Prod.fst := by
  have hrel : MemRel hashOps ordOps (new_hash (K := K) (V := V)) new_ord :=
    ⟨fun _ => rfl, rfl⟩
  have h := runCalls_bisim hashOps ordOps userF hashLaws ordLaws fuel calls
    new_hash new_ord hrel
  cases h1 : runCalls hashOps userF fuel calls new_hash with
  | error e1 =>
    cases h2 : runCalls ordOps userF fuel calls new_ord with
    | error e2 =>
      rw [h1, h2] at h
      have he : e1 = e2 := h
      rw [he]
    | ok q2 =>
      rw [h1, h2] at h
      obtain ⟨rs2, mF2⟩ := q2
      cases h
  | ok q1 =>
    obtain ⟨rs1, mF1⟩ := q1
    cases h2 : runCalls ordOps userF fuel calls new_ord with
    | error e2 =>
      rw [h1, h2] at h
      cases h
    | ok q2 =>
      obtain ⟨rs2, mF2⟩ := q2
      rw [h1, h2] at h
      obtain ⟨hrs, hmem⟩ := h
      subst hrs
      rfl

theorem claim8_backend_equivalence_witness :
    (runCalls hashOps fibProg 20 [Call.lookup 5] new_hash).map Prod.fst =
      (runCalls ordOps fibProg 20 [Call.lookup 5] new_ord).map Prod.fst :=
  claim8_backend_equivalence fibProg 20 [Call.lookup 5]

/-- Full evaluation of the test sequence on the hash-map construction. -/
theorem fibRunHash :
    runCalls hashOps fibProg 200 fibCalls new_hash =
      .ok ([.val 0, .val 1, .val 1, .val 2, .val 6765, .val 832040,
        .val 102334155], ⟨[(31, .Finished 1346269), (32, .Finished 2178309), (33, .Finished 3524578), (34, .Finished 5702887), (35, .Finished 9227465), (36, .Finished 14930352), (37, .Finished 24157817), (38, .Finished 39088169), (39, .Finished 63245986), (40, .Finished 102334155), (21, .Finished 10946), (22, .Finished 17711), (23, .Finished 28657), (24, .Finished 46368), (25, .Finished 75025), (26, .Finished 121393), (27, .Finished 196418), (28, .Finished 317811), (29, .Finished 514229), (30, .Finished 832040), (4, .Finished 3), (5, .Finished 5), (6, .Finished 8), (7, .Finished 13), (8, .Finished 21), (9, .Finished 34), (10, .Finished 55), (11, .Finished 89), (12, .Finished 144), (13, .Finished 233), (14, .Finished 377), (15, .Finished 610), (16, .Finished 987), (17, .Finished 1597), (18, .Finished 2584), (19, .Finished 4181), (20, .Finished 6765), (3, .Finished 2), (2, .Finished 1), (1, .Finished 1), (0, .Finished 0)], none⟩) := by
  have h1 : lookup hashOps fibProg 200 ⟨([] : List (Nat × MemoVal Nat)), none⟩ 0 =
      .ok (0, ⟨[(0, .Finished 0)], none⟩) := by rfl
  have h2 : lookup hashOps fibProg 200 ⟨[(0, .Finished 0)], none⟩ 1 =
      .ok (1, ⟨[(1, .Finished 1), (0, .Finished 0)], none⟩) := by rfl
  have h3 : lookup hashOps fibProg 200 ⟨[(1, .Finished 1), (0, .Finished 0)], none⟩ 2 =
      .ok (1, ⟨[(2, .Finished 1), (1, .Finished 1), (0, .Finished 0)], none⟩) := by rfl
  have h4 : lookup hashOps fibProg 200 ⟨[(2, .Finished 1), (1, .Finished 1), (0, .Finished 0)], none⟩ 3 =
      .ok (2, ⟨[(3, .Finished 2), (2, .Finished 1), (1, .Finished 1), (0, .Finished 0)], none⟩) := by rfl
  have h5 : lookup hashOps fibProg 200 ⟨[(3, .Finished 2), (2, .Finished 1), (1, .Finished 1), (0, .Finished 0)], none⟩ 20 =
      .ok (6765, ⟨[(4, .Finished 3), (5, .Finished 5), (6, .Finished 8), (7, .Finished 13), (8, .Finished 21), (9, .Finished 34), (10, .Finished 55), (11, .Finished 89), (12, .Finished 144), (13, .Finished 233), (14, .Finished 377), (15, .Finished 610), (16, .Finished 987), (17, .Finished 1597), (18, .Finished 2584), (19, .Finished 4181), (20, .Finished 6765), (3, .Finished 2), (2, .Finished 1), (1, .Finished 1), (0, .Finished 0)], none⟩) := by rfl
  have h6 : lookup hashOps fibProg 200 ⟨[(4, .Finished 3), (5, .Finished 5), (6, .Finished 8), (7, .Finished 13), (8, .Finished 21), (9, .Finished 34), (10, .Finished 55), (11, .Finished 89), (12, .Finished 144), (13, .Finished 233), (14, .Finished 377), (15, .Finished 610), (16, .Finished 987), (17, .Finished 1597), (18, .Finished 2584), (19, .Finished 4181), (20, .Finished 6765), (3, .Finished 2), (2, .Finished 1), (1, .Finished 1), (0, .Finished 0)], none⟩ 30 =
      .ok (832040, ⟨[(21, .Finished 10946), (22, .Finished 17711), (23, .Finished 28657), (24, .Finished 46368), (25, .Finished 75025), (26, .Finished 121393), (27, .Finished 196418), (28, .Finished 317811), (29, .Finished 514229), (30, .Finished 832040), (4, .Finished 3), (5, .Finished 5), (6, .Finished 8), (7, .Finished 13), (8, .Finished 21), (9, .Finished 34), (10, .Finished 55), (11, .Finished 89), (12, .Finished 144), (13, .Finished 233), (14, .Finished 377), (15, .Finished 610), (16, .Finished 987), (17, .Finished 1597), (18, .Finished 2584), (19, .Finished 4181), (20, .Finished 6765), (3, .Finished 2), (2, .Finished 1), (1, .Finished 1), (0, .Finished 0)], none⟩) := by rfl
  have h7 : lookup hashOps fibProg 200 ⟨[(21, .Finished 10946), (22, .Finished 17711), (23, .Finished 28657), (24, .Finished 46368), (25, .Finished 75025), (26, .Finished 121393), (27, .Finished 196418), (28, .Finished 317811), (29, .Finished 514229), (30, .Finished 832040), (4, .Finished 3), (5, .Finished 5), (6, .Finished 8), (7, .Finished 13), (8, .Finished 21), (9, .Finished 34), (10, .Finished 55), (11, .Finished 89), (12, .Finished 144), (13, .Finished 233), (14, .Finished 377), (15, .Finished 610), (16, .Finished 987), (17, .Finished 1597), (18, .Finished 2584), (19, .Finished 4181), (20, .Finished 6765), (3, .Finished 2), (2, .Finished 1), (1, .Finished 1), (0, .Finished 0)], none⟩ 40 =
      .ok (102334155, ⟨[(31, .Finished 1346269), (32, .Finished 2178309), (33, .Finished 3524578), (34, .Finished 5702887), (35, .Finished 9227465), (36, .Finished 14930352), (37, .Finished 24157817), (38, .Finished 39088169), (39, .Finished 63245986), (40, .Finished 102334155), (21, .Finished 10946), (22, .Finished 17711), (23, .Finished 28657), (24, .Finished 46368), (25, .Finished 75025), (26, .Finished 121393), (27, .Finished 196418), (28, .Finished 317811), (29, .Finished 514229), (30, .Finished 832040), (4, .Finished 3), (5, .Finished 5), (6, .Finished 8), (7, .Finished 13), (8, .Finished 21), (9, .Finished 34), (10, .Finished 55), (11, .Finished 89), (12, .Finished 144), (13, .Finished 233), (14, .Finished 377), (15, .Finished 610), (16, .Finished 987), (17, .Finished 1597), (18, .Finished 2584), (19, .Finished 4181), (20, .Finished 6765), (3, .Finished 2), (2, .Finished 1), (1, .Finished 1), (0, .Finished 0)], none⟩) := by rfl
  exact runCalls_lookup_ok_ok fibProg hashOps 200 0 [.lookup 1, .lookup 2, .lookup 3, .lookup 20, .lookup 30, .lookup 40] _ _ _ _ _ h1
    (runCalls_lookup_ok_ok fibProg hashOps 200 1 [.lookup 2, .lookup 3, .lookup 20, .lookup 30, .lookup 40] _ _ _ _ _ h2
      (runCalls_lookup_ok_ok fibProg hashOps 200 2 [.lookup 3, .lookup 20, .lookup 30, .lookup 40] _ _ _ _ _ h3
        (runCalls_lookup_ok_ok fibProg hashOps 200 3 [.lookup 20, .lookup 30, .lookup 40] _ _ _ _ _ h4
          (runCalls_lookup_ok_ok fibProg hashOps 200 20 [.lookup 30, .lookup 40] _ _ _ _ _ h5
            (runCalls_lookup_ok_ok fibProg hashOps 200 30 [.lookup 40] _ _ _ _ _ h6
              (runCalls_lookup_ok_ok fibProg hashOps 200 40 [] _ _ _ _ _ h7
                (rfl)))))))

/-- Full evaluation of the test sequence on the ordered-map construction. -/
theorem fibRunOrd :
    runCalls ordOps fibProg 200 fibCalls new_ord =
      .ok ([.val 0, .val 1, .val 1, .val 2, .val 6765, .val 832040,
        .val 102334155], ⟨[(0, .Finished 0), (1, .Finished 1), (2, .Finished 1), (3, .Finished 2), (4, .Finished 3), (5, .Finished 5), (6, .Finished 8), (7, .Finished 13), (8, .Finished 21), (9, .Finished 34), (10, .Finished 55), (11, .Finished 89), (12, .Finished 144), (13, .Finished 233), (14, .Finished 377), (15, .Finished 610), (16, .Finished 987), (17, .Finished 1597), (18, .Finished 2584), (19, .Finished 4181), (20, .Finished 6765), (21, .Finished 10946), (22, .Finished 17711), (23, .Finished 28657), (24, .Finished 46368), (25, .Finished 75025), (26, .Finished 121393), (27, .Finished 196418), (28, .Finished 317811), (29, .Finished 514229), (30, .Finished 832040), (31, .Finished 1346269), (32, .Finished 2178309), (33, .Finished 3524578), (34, .Finished 5702887), (35, .Finished 9227465), (36, .Finished 14930352), (37, .Finished 24157817), (38, .Finished 39088169), (39, .Finished 63245986), (40, .Finished 102334155)], none⟩) := by
  have h1 : lookup ordOps fibProg 200 ⟨([] : List (Nat × MemoVal Nat)), none⟩ 0 =
      .ok (0, ⟨[(0, .Finished 0)], none⟩) := by rfl
  have h2 : lookup ordOps fibProg 200 ⟨[(0, .Finished 0)], none⟩ 1 =
      .ok (1, ⟨[(0, .Finished 0), (1, .Finished 1)], none⟩) := by rfl
  have h3 : lookup ordOps fibProg 200 ⟨[(0, .Finished 0), (1, .Finished 1)], none⟩ 2 =
      .ok (1, ⟨[(0, .Finished 0), (1, .Finished 1), (2, .Finished 1)], none⟩) := by rfl
  have h4 : lookup ordOps fibProg 200 ⟨[(0, .Finished 0), (1, .Finished 1), (2, .Finished 1)], none⟩ 3 =
      .ok (2, ⟨[(0, .Finished 0), (1, .Finished 1), (2, .Finished 1), (3, .Finished 2)], none⟩) := by rfl
  have h5 : lookup ordOps fibProg 200 ⟨[(0, .Finished 0), (1, .Finished 1), (2, .Finished 1), (3, .Finished 2)], none⟩ 20 =
      .ok (6765, ⟨[(0, .Finished 0), (1, .Finished 1), (2, .Finished 1), (3, .Finished 2), (4, .Finished 3), (5, .Finished 5), (6, .Finished 8), (7, .Finished 13), (8, .Finished 21), (9, .Finished 34), (10, .Finished 55), (11, .Finished 89), (12, .Finished 144), (13, .Finished 233), (14, .Finished 377), (15, .Finished 610), (16, .Finished 987), (17, .Finished 1597), (18, .Finished 2584), (19, .Finished 4181), (20, .Finished 6765)], none⟩) := by rfl
  have h6 : lookup ordOps fibProg 200 ⟨[(0, .Finished 0), (1, .Finished 1), (2, .Finished 1), (3, .Finished 2), (4, .Finished 3), (5, .Finished 5), (6, .Finished 8), (7, .Finished 13), (8, .Finished 21), (9, .Finished 34), (10, .Finished 55), (11, .Finished 89), (12, .Finished 144), (13, .Finished 233), (14, .Finished 377), (15, .Finished 610), (16, .Finished 987), (17, .Finished 1597), (18, .Finished 2584), (19, .Finished 4181), (20, .Finished 6765)], none⟩ 30 =
      .ok (832040, ⟨[(0, .Finished 0), (1, .Finished 1), (2, .Finished 1), (3, .Finished 2), (4, .Finished 3), (5, .Finished 5), (6, .Finished 8), (7, .Finished 13), (8, .Finished 21), (9, .Finished 34), (10, .Finished 55), (11, .Finished 89), (12, .Finished 144), (13, .Finished 233), (14, .Finished 377), (15, .Finished 610), (16, .Finished 987), (17, .Finished 1597), (18, .Finished 2584), (19, .Finished 4181), (20, .Finished 6765), (21, .Finished 10946), (22, .Finished 17711), (23, .Finished 28657), (24, .Finished 46368), (25, .Finished 75025), (26, .Finished 121393), (27, .Finished 196418), (28, .Finished 317811), (29, .Finished 514229), (30, .Finished 832040)], none⟩) := by rfl
  have h7 : lookup ordOps fibProg 200 ⟨[(0, .Finished 0), (1, .Finished 1), (2, .Finished 1), (3, .Finished 2), (4, .Finished 3), (5, .Finished 5), (6, .Finished 8), (7, .Finished 13), (8, .Finished 21), (9, .Finished 34), (10, .Finished 55), (11, .Finished 89), (12, .Finished 144), (13, .Finished 233), (14, .Finished 377), (15, .Finished 610), (16, .Finished 987), (17, .Finished 1597), (18, .Finished 2584), (19, .Finished 4181), (20, .Finished 6765), (21, .Finished 10946), (22, .Finished 17711), (23, .Finished 28657), (24, .Finished 46368), (25, .Finished 75025), (26, .Finished 121393), (27, .Finished 196418), (28, .Finished 317811), (29, .Finished 514229), (30, .Finished 832040)], none⟩ 40 =
      .ok (102334155, ⟨[(0, .Finished 0), (1, .Finished 1), (2, .Finished 1), (3, .Finished 2), (4, .Finished 3), (5, .Finished 5), (6, .Finished 8), (7, .Finished 13), (8, .Finished 21), (9, .Finished 34), (10, .Finished 55), (11, .Finished 89), (12, .Finished 144), (13, .Finished 233), (14, .Finished 377), (15, .Finished 610), (16, .Finished 987), (17, .Finished 1597), (18, .Finished 2584), (19, .Finished 4181), (20, .Finished 6765), (21, .Finished 10946), (22, .Finished 17711), (23, .Finished 28657), (24, .Finished 46368), (25, .Finished 75025), (26, .Finished 121393), (27, .Finished 196418), (28, .Finished 317811), (29, .Finished 514229), (30, .Finished 832040), (31, .Finished 1346269), (32, .Finished 2178309), (33, .Finished 3524578), (34, .Finished 5702887), (35, .Finished 9227465), (36, .Finished 14930352), (37, .Finished 24157817), (38, .Finished 39088169), (39, .Finished 63245986), (40, .Finished 102334155)], none⟩) := by rfl
  exact runCalls_lookup_ok_ok fibProg ordOps 200 0 [.lookup 1, .lookup 2, .lookup 3, .lookup 20, .lookup 30, .lookup 40] _ _ _ _ _ h1
    (runCalls_lookup_ok_ok fibProg ordOps 200 1 [.lookup 2, .lookup 3, .lookup 20, .lookup 30, .lookup 40] _ _ _ _ _ h2
      (runCalls_lookup_ok_ok fibProg ordOps 200 2 [.lookup 3, .lookup 20, .lookup 30, .lookup 40] _ _ _ _ _ h3
        (runCalls_lookup_ok_ok fibProg ordOps 200 3 [.lookup 20, .lookup 30, .lookup 40] _ _ _ _ _ h4
          (runCalls_lookup_ok_ok fibProg ordOps 200 20 [.lookup 30, .lookup 40] _ _ _ _ _ h5
            (runCalls_lookup_ok_ok fibProg ordOps 200 30 [.lookup 40] _ _ _ _ _ h6
              (runCalls_lookup_ok_ok fibProg ordOps 200 40 [] _ _ _ _ _ h7
                (rfl)))))))
/-- Claim C9: memoizing the Fibonacci-style user function of the test
suite over both constructions, the test sequence of lookups returns
0, 1, 1, 2, 6765 (for key 20), 832040 (for key 30) and 102334155 (for
key 40). -/
theorem claim9_fib_values :
    (runCalls hashOps fibProg 200 fibCalls new_hash).map Prod.fst =
      .ok [.val 0, .val 1, .val 1, .val 2, .val 6765, .val 832040,
        .val 102334155] ∧
    (runCalls ordOps fibProg 200 fibCalls new_ord).map Prod.fst =
      .ok [.val 0, .val 1, .val 1, .val 2, .val 6765, .val 832040,
        .val 102334155] := by
  constructor
  · rw [fibRunHash]
    rfl
  · rw [fibRunOrd]
    rfl

/-- Claim C10: the persistence decision for a key is fixed at the moment
of the cache miss from the predicate installed at that moment: a user
function that installs a replacement predicate `q` while computing still
has its key stored or skipped according to the original predicate `p`
(and only the predicate — no other slot — is affected by the
replacement). -/
theorem claim10_decision_fixed_at_miss {S K V : Type}
    (ops : StoreOps S K (MemoVal V)) (hL : StoreLaws ops) (p q : K → Bool)
    (g : K → V) (fuel : Nat) (mem : Memoizer S K V) (k : K)
    (hpred : mem.memo_predicate = some p)
    (habs : ops.get mem.cache k = none) :
    ∃ c1, lookup ops (fun k2 => .setPred q (.ret (g k2))) (fuel + 3) mem k =
        .ok (g k, ⟨c1, some q⟩) ∧
      ops.get c1 k = (if p k then some (.Finished (g k)) else none) ∧
      ∀ j, j ≠ k → ops.get c1 j = ops.get mem.cache j := by
  have hsd : saveDecision mem k = p k := by
    rw [saveDecision, hpred]
    rfl
  cases hpk : p k with
  | true =>
    have hsave : saveDecision mem k = true := by rw [hsd, hpk]
    obtain ⟨c0, hins⟩ := hL.insert_of_absent mem.cache k .InProgress habs
    refine ⟨ops.set c0 k (.Finished (g k)), ?_, ?_, ?_⟩
    · show run ops (fun k2 => .setPred q (.ret (g k2))) (fuel + 2 + 1)
        (.call k) mem = _
      rw [run_call_miss_save ops (fun k2 => .setPred q (.ret (g k2)))
        (fuel + 2) k mem c0 habs hsave hins]
      have hinner : run ops (fun k2 => .setPred q (.ret (g k2))) (fuel + 2)
          (.exec ((fun k2 => Prog.setPred q (.ret (g k2))) k))
          ⟨c0, mem.memo_predicate⟩ = .ok (g k, ⟨c0, some q⟩) := by
        show run ops (fun k2 => .setPred q (.ret (g k2))) (fuel + 1 + 1)
          (.exec (.setPred q (.ret (g k)))) ⟨c0, mem.memo_predicate⟩ = _
        rw [run_exec_setPred]
        exact run_exec_ret ops (fun k2 => .setPred q (.ret (g k2))) fuel (g k)
          ⟨c0, some q⟩
      rw [hinner]
    · have hip : ops.get c0 k = some .InProgress :=
        hL.get_insert_self mem.cache k .InProgress c0 hins
      have := hL.get_set_self c0 k (.Finished (g k)) .InProgress hip
      simpa using this
    · intro j hj
      rw [hL.get_set_other c0 k (.Finished (g k)) j hj,
        hL.get_insert_other mem.cache k .InProgress c0 j hins hj]
  | false =>
    have hsave : saveDecision mem k = false := by rw [hsd, hpk]
    refine ⟨mem.cache, ?_, ?_, fun j hj => rfl⟩
    · show run ops (fun k2 => .setPred q (.ret (g k2))) (fuel + 2 + 1)
        (.call k) mem = _
      rw [run_call_miss_nosave ops (fun k2 => .setPred q (.ret (g k2)))
        (fuel + 2) k mem habs hsave]
      have hinner : run ops (fun k2 => .setPred q (.ret (g k2))) (fuel + 2)
          (.exec ((fun k2 => Prog.setPred q (.ret (g k2))) k)) mem =
          .ok (g k, ⟨mem.cache, some q⟩) := by
        show run ops (fun k2 => .setPred q (.ret (g k2))) (fuel + 1 + 1)
          (.exec (.setPred q (.ret (g k)))) mem = _
        rw [run_exec_setPred]
        exact run_exec_ret ops (fun k2 => .setPred q (.ret (g k2))) fuel (g k)
          ⟨mem.cache, some q⟩
      rw [hinner]
    · exact habs

theorem claim10_decision_fixed_at_miss_witness :
    ∃ c1, lookup hashOps
        (fun k2 => Prog.setPred (fun _ => false) (Prog.ret (k2 * 3))) 3
        (⟨[], some (fun n => decide (n % 2 = 0))⟩ :
          Memoizer (List (Nat × MemoVal Nat)) Nat Nat) 4 =
        .ok (12, ⟨c1, some (fun _ => false)⟩) ∧
      hashOps.get c1 4 =
        (if decide ((4 : Nat) % 2 = 0) then some (.Finished 12) else none) ∧
      ∀ j, j ≠ 4 → hashOps.get c1 j = hashOps.get [] j :=
  claim10_decision_fixed_at_miss hashOps hashLaws
    (fun n => decide (n % 2 = 0)) (fun _ => false) (fun n => n * 3) 0
    ⟨[], some (fun n => decide (n % 2 = 0))⟩ 4 rfl rfl

end Claims

end RedMemo
